import Mathlib

/-
  Shallow embedding of the per-call-site memory aggregation core of
  trace-cmd's trace-mem.c.

  Modelling conventions:
  - `unsigned long` / `unsigned long long` counters are 64-bit on the
    LP64 targets this tool builds for; they are modelled as `Nat` with
    every update reduced modulo 18446744073709551616 (= 2 ^ 64).
  - `unsigned int` is 32-bit: values are reduced modulo 4294967296 (= 2 ^ 32).
  - `int` is 32-bit two's complement: a 64-bit trace field narrowed to
    `int` keeps its low 32 bits, reinterpreted as a signed value
    (`to_i32`), and converting that `int` back into an `unsigned long`
    sign-extends it modulo 2 ^ 64 (`u64_of_int`).
  - The two fixed-size hash tables with collision chains (func_hash,
    ptr_hash) are modelled as association lists with first-match lookup;
    the hash only distributes entries over buckets and the source's
    lookups (find_func, find_ptr), in-place creation (create_func,
    create_ptr) and unlink (remove_ptr) are exactly first-match
    operations on the chain, so the bucket structure is semantically
    irrelevant (the report enumeration order is unspecified either way).
  - Call sites are identified by the interned function-name pointer and
    compared by pointer identity in the source (`funcd->func == func`);
    they are modelled as opaque `Nat` identities.
-/

/-- Statistics record for one call site (struct func_descr, trace-mem.c
lines 158-169, without the intrusive hash link and the report-time
waste fields, which are computed in `func_report` below). All fields
are C `unsigned long`, i.e. 64-bit unsigned. -/
structure FuncStats where
  total_alloc : Nat
  total_req : Nat
  current_alloc : Nat
  current_req : Nat
  max_alloc : Nat
  max_req : Nat
deriving DecidableEq, Repr

/-- The zero-initialized record produced by zalloc in create_func. -/
def FuncStats.zero : FuncStats := ⟨0, 0, 0, 0, 0, 0⟩

/-- Live-allocation record for one outstanding pointer (struct ptr_descr,
trace-mem.c lines 171-177). `func` is the identity of the owning call
site; `alloc` and `req` are the sizes stashed at allocation time
(already converted to `unsigned long`). -/
structure PtrDescr where
  func : Nat
  alloc : Nat
  req : Nat
deriving DecidableEq, Repr

/-- The whole aggregation state: the call-site table (func_hash) and the
live-allocation table (ptr_hash), as association lists. -/
structure MemState where
  funcs : List (Nat × FuncStats)
  ptrs : List (Nat × PtrDescr)
deriving DecidableEq, Repr

/-- The initial state: both tables empty. -/
def MemState.empty : MemState := ⟨[], []⟩

/-- Narrowing a 64-bit field value to C `unsigned int`
(`req = val;` in process_kmalloc). -/
def to_u32 (v : Nat) : Nat := v % 4294967296

/-- Narrowing a 64-bit field value to C `int` (`alloc = val;` in
process_kmalloc): keep the low 32 bits, two's complement signed. -/
def to_i32 (v : Nat) : Int :=
  if v % 4294967296 < 2147483648 then ((v % 4294967296 : Nat) : Int)
  else ((v % 4294967296 : Nat) : Int) - 4294967296

/-- Conversion of a C `int` into `unsigned long` (the usual arithmetic
conversion applied by `funcd->total_alloc += alloc` and by
`ptrd->alloc = alloc`): reduce the signed value modulo 2 ^ 64. -/
def u64_of_int (i : Int) : Nat := (i % 18446744073709551616).toNat

/-- 64-bit unsigned addition (`+=` on `unsigned long` fields). -/
def add64 (a b : Nat) : Nat := (a + b) % 18446744073709551616

/-- 64-bit unsigned subtraction (`-=` on `unsigned long` fields),
wrapping modulo 2 ^ 64. -/
def sub64 (a b : Nat) : Nat :=
  (a + (18446744073709551616 - b % 18446744073709551616)) % 18446744073709551616

/-- Reinterpretation of a stored 64-bit unsigned field as a signed long,
as done by printing it with the %ld conversion in print_list. -/
def as_signed64 (v : Nat) : Int :=
  if v % 18446744073709551616 < 9223372036854775808
  then ((v % 18446744073709551616 : Nat) : Int)
  else ((v % 18446744073709551616 : Nat) : Int) - 18446744073709551616

/-- First-match lookup in the call-site table (find_func, lines 202-217:
walk the chain and compare the interned name by identity). -/
def find_func : List (Nat × FuncStats) → Nat → Option FuncStats
  | [], _ => none
  | (k, fd) :: t, f => if k = f then some fd else find_func t f

/-- In-place mutation of the first record with the given call-site key
(the source mutates the record returned by find_func through its
pointer). Other entries are untouched. -/
def update_func (g : FuncStats → FuncStats) : List (Nat × FuncStats) → Nat → List (Nat × FuncStats)
  | [], _ => []
  | (k, fd) :: t, f => if k = f then (k, g fd) :: t else (k, fd) :: update_func g t f

/-- First-match lookup in the live-allocation table (find_ptr,
lines 237-248). -/
def find_ptr : List (Nat × PtrDescr) → Nat → Option PtrDescr
  | [], _ => none
  | (k, e) :: t, p => if k = p then some e else find_ptr t p

/-- In-place overwrite of the fields of the first record with the given
pointer key (add_kmalloc mutates the record returned by find_ptr). -/
def replace_ptr (d : PtrDescr) : List (Nat × PtrDescr) → Nat → List (Nat × PtrDescr)
  | [], _ => []
  | (k, e) :: t, p => if k = p then (k, d) :: t else (k, e) :: replace_ptr d t p

/-- Unlink of the first record with the given pointer key (remove_ptr,
lines 266-283); removing an absent pointer leaves the table unchanged. -/
def remove_ptr : List (Nat × PtrDescr) → Nat → List (Nat × PtrDescr)
  | [], _ => []
  | (k, e) :: t, p => if k = p then t else (k, e) :: remove_ptr t p

/-- The statistics updates of add_kmalloc (lines 295-302): add the
granted bytes (already converted to `unsigned long`, `alloc64`) and the
requested bytes (`unsigned int` value `req32`) into the lifetime and
current counters, then raise the high-water marks if strictly
exceeded. -/
def alloc_update (alloc64 req32 : Nat) (fd : FuncStats) : FuncStats :=
  let ca := add64 fd.current_alloc alloc64
  let cr := add64 fd.current_req req32
  { total_alloc := add64 fd.total_alloc alloc64
    total_req := add64 fd.total_req req32
    current_alloc := ca
    current_req := cr
    max_alloc := if fd.max_alloc < ca then ca else fd.max_alloc
    max_req := if fd.max_req < cr then cr else fd.max_req }

/-- add_kmalloc (lines 285-311): find or create the call-site record,
apply `alloc_update` to it, then unconditionally install the
(func, alloc, req) triple under the pointer key, overwriting a live
record for that pointer if present. -/
def add_kmalloc (s : MemState) (func ptr : Nat) (req : Nat) (alloc : Int) : MemState :=
  let a64 := u64_of_int alloc
  let funcs := match find_func s.funcs func with
    | some _ => update_func (alloc_update a64 req) s.funcs func
    | none => (func, alloc_update a64 req FuncStats.zero) :: s.funcs
  let d : PtrDescr := ⟨func, a64, req⟩
  let ptrs := match find_ptr s.ptrs ptr with
    | some _ => replace_ptr d s.ptrs ptr
    | none => (ptr, d) :: s.ptrs
  ⟨funcs, ptrs⟩

/-- The counter roll-back of remove_kmalloc (lines 322-324): subtract the
sizes stashed in the live record from the owner's current counters. -/
def sub_stats (e : PtrDescr) (fd : FuncStats) : FuncStats :=
  { fd with
    current_alloc := sub64 fd.current_alloc e.alloc
    current_req := sub64 fd.current_req e.req }

/-- remove_kmalloc (lines 313-327): look up the pointer; if absent the
free event is a silent no-op; otherwise roll the stashed sizes back out
of the owning call site's current counters and unlink the record. -/
def remove_kmalloc (s : MemState) (ptr : Nat) : MemState :=
  match find_ptr s.ptrs ptr with
  | none => s
  | some e => ⟨update_func (sub_stats e) s.funcs e.func, remove_ptr s.ptrs ptr⟩

/-- process_kmalloc (lines 329-353): narrow the raw 64-bit bytes_req
field to `unsigned int` and the raw bytes_alloc field to `int`, then
funnel into add_kmalloc. (The symbol resolution of the call-site
address is outside the core; `call_site` is already the interned
identity.) -/
def process_kmalloc (s : MemState) (call_site ptr bytes_req bytes_alloc : Nat) : MemState :=
  add_kmalloc s call_site ptr (to_u32 bytes_req) (to_i32 bytes_alloc)

/-- process_kfree (lines 355-364): read the pointer and funnel into
remove_kmalloc. -/
def process_kfree (s : MemState) (ptr : Nat) : MemState := remove_kmalloc s ptr

/-- One already-classified event, as received by the applier: the four
allocate-class trace events (kmalloc, kmalloc_node, kmem_cache_alloc,
kmem_cache_alloc_node) all carry the same decoded fields and funnel
into process_kmalloc; the two free-class events (kfree,
kmem_cache_free) carry the pointer; `other` stands for any
unrecognized discriminant. Field values are the raw 64-bit numbers read
from the record. -/
inductive Event where
  | alloc (call_site ptr bytes_req bytes_alloc : Nat)
  | free (ptr : Nat)
  | other
deriving DecidableEq, Repr

/-- Application of one classified event to the aggregation state. -/
def apply_event (s : MemState) : Event → MemState
  | .alloc cs p rq al => process_kmalloc s cs p rq al
  | .free p => process_kfree s p
  | .other => s

/-- Application of a whole event stream, in order. -/
def apply_events (s : MemState) (es : List Event) : MemState :=
  es.foldl apply_event s

/-- The statistics record currently held for a call site; a site that
was never seen reads as the zero record (exactly what create_func would
hand out before any update). -/
def stats_of (s : MemState) (f : Nat) : FuncStats :=
  match find_func s.funcs f with
  | some fd => fd
  | none => FuncStats.zero

/-- One row of the report: struct func_descr as printed by print_list,
after sort_list (lines 426-434) has filled in the two derived fields
waste = current_alloc - current_req and
max_waste = max_alloc - max_req (both computed in `unsigned long`
arithmetic, i.e. modulo 2 ^ 64). -/
structure FuncReport where
  func : Nat
  waste : Nat
  current_alloc : Nat
  current_req : Nat
  total_alloc : Nat
  total_req : Nat
  max_alloc : Nat
  max_req : Nat
  max_waste : Nat
deriving DecidableEq, Repr

/-- Computation of one report row from a call-site table entry. -/
def func_report (pr : Nat × FuncStats) : FuncReport :=
  { func := pr.1
    waste := sub64 pr.2.current_alloc pr.2.current_req
    current_alloc := pr.2.current_alloc
    current_req := pr.2.current_req
    total_alloc := pr.2.total_alloc
    total_req := pr.2.total_req
    max_alloc := pr.2.max_alloc
    max_req := pr.2.max_req
    max_waste := sub64 pr.2.max_alloc pr.2.max_req }

/-- func_cmp (lines 406-416): the qsort comparator, ordering rows by
descending waste; the comparison is on the `unsigned long` waste
field. -/
def func_cmp (a b : FuncReport) : Int :=
  if b.waste < a.waste then -1 else if a.waste < b.waste then 1 else 0

/-- The ordering relation realized by qsort with func_cmp: a row may
precede another when the comparator does not order it strictly after. -/
def row_le (a b : FuncReport) : Prop := func_cmp a b ≤ 0

instance : DecidableRel row_le :=
  fun a b => inferInstanceAs (Decidable (func_cmp a b ≤ 0))

instance : IsTotal FuncReport row_le := by
  constructor
  intro a b
  unfold row_le func_cmp
  split_ifs <;> omega

instance : IsTrans FuncReport row_le := by
  constructor
  intro a b c hab hbc
  unfold row_le func_cmp at *
  split_ifs at * <;> omega

/-- sort_list (lines 418-437): compute the derived waste fields for
every call-site record and sort the rows by descending waste. qsort
gives no tie-break guarantee; insertion sort realizes one possible
qsort outcome, and all the properties proved below depend only on
sortedness with respect to the comparator. -/
def sort_list (s : MemState) : List FuncReport :=
  List.insertionSort row_le (s.funcs.map func_report)

/-- The six resolved event-type discriminants (the static ints
kmalloc_type .. kmem_cache_free_type, lines 26-31). -/
structure EventTypes where
  kmalloc_type : Int
  kmalloc_node_type : Int
  kfree_type : Int
  kmem_cache_alloc_type : Int
  kmem_cache_alloc_node_type : Int
  kmem_cache_free_type : Int
deriving DecidableEq, Repr

/-- One undecoded record, reduced to the decoded 64-bit values of the
fields the applier may read: the common_type discriminant and the four
payload fields. -/
structure RawRecord where
  common_type : Nat
  call_site : Nat
  bytes_req : Nat
  bytes_alloc : Nat
  ptr : Nat
deriving DecidableEq, Repr

/-- process_record (lines 366-404): narrow the common_type field to
`int` and compare it against the six resolved discriminants in source
order; the four allocate kinds funnel into process_kmalloc, the two
free kinds into process_kfree, and anything else falls through with no
effect. -/
def process_record (tys : EventTypes) (s : MemState) (r : RawRecord) : MemState :=
  let typ := to_i32 r.common_type
  if typ = tys.kmalloc_type then
    process_kmalloc s r.call_site r.ptr r.bytes_req r.bytes_alloc
  else if typ = tys.kmalloc_node_type then
    process_kmalloc s r.call_site r.ptr r.bytes_req r.bytes_alloc
  else if typ = tys.kfree_type then
    process_kfree s r.ptr
  else if typ = tys.kmem_cache_alloc_type then
    process_kmalloc s r.call_site r.ptr r.bytes_req r.bytes_alloc
  else if typ = tys.kmem_cache_alloc_node_type then
    process_kmalloc s r.call_site r.ptr r.bytes_req r.bytes_alloc
  else if typ = tys.kmem_cache_free_type then
    process_kfree s r.ptr
  else s

/-- Sum of one stored size field (selected by `w`) over the live records
owned by call site `f`. -/
def owned_sum (w : PtrDescr → Nat) (l : List (Nat × PtrDescr)) (f : Nat) : Nat :=
  (l.map (fun pe => if pe.2.func = f then w pe.2 else 0)).sum

/-- Sum of the lifetime counters over the whole call-site table. -/
def states_sum (l : List (Nat × FuncStats)) : Nat :=
  (l.map (fun pr => pr.2.total_alloc + pr.2.total_req)).sum

/-- The sign-extension of the low 32 bits of a raw 64-bit field value
into a 64-bit unsigned integer: the net effect on the `unsigned long`
counters of narrowing the field to `int` and adding it back in. -/
def sign_ext32 (v : Nat) : Nat :=
  if v % 4294967296 < 2147483648 then v % 4294967296
  else 18446744073709551616 - 4294967296 + v % 4294967296

/-- True when every allocate-class event in the stream carries a granted
value whose low 32 bits decode to a nonnegative `int`. -/
def allocs_nonneg (es : List Event) : Bool :=
  es.all fun e =>
    match e with
    | .alloc _ _ _ al => decide (al % 4294967296 < 2147483648)
    | _ => true

/-- The bytes an event can add to the lifetime counters: requested plus
granted (each taken through its 32-bit narrowing) for an
allocate-class event, nothing otherwise. -/
def event_budget : Event → Nat
  | .alloc _ _ rq al => al % 4294967296 + rq % 4294967296
  | _ => 0

/-- Total of `event_budget` over a stream. -/
def run_budget : List Event → Nat
  | [] => 0
  | e :: es => event_budget e + run_budget es

/-- The inductive invariant behind the high-water-mark property: every
call-site record keeps its current counters below its lifetime
counters and below its high-water marks, and the bytes stashed in the
live records owned by a site never exceed that site's current
counters. -/
def good_state (s : MemState) : Prop :=
  (∀ pr ∈ s.funcs,
      pr.2.current_alloc ≤ pr.2.total_alloc ∧ pr.2.current_req ≤ pr.2.total_req ∧
      pr.2.max_alloc ≤ pr.2.total_alloc ∧ pr.2.max_req ≤ pr.2.total_req ∧
      pr.2.current_alloc ≤ pr.2.max_alloc ∧ pr.2.current_req ≤ pr.2.max_req) ∧
  (∀ g : Nat,
      owned_sum PtrDescr.alloc s.ptrs g ≤ (stats_of s g).current_alloc ∧
      owned_sum PtrDescr.req s.ptrs g ≤ (stats_of s g).current_req)

/-- True when the next event is not an allocation that would overwrite a
live record owned by call site `f` (the pointer-reuse collisions that
lose `f`'s accounting). -/
def event_ok (f : Nat) (s : MemState) : Event → Bool
  | .alloc _ p _ _ =>
      match find_ptr s.ptrs p with
      | some e => ! (e.func == f)
      | none => true
  | _ => true

/-- True when, along the whole run from state `s`, no allocation ever
overwrites a live record owned by call site `f`. -/
def no_reuse_for (f : Nat) : MemState → List Event → Bool
  | _, [] => true
  | s, e :: es => event_ok f s e && no_reuse_for f (apply_event s e) es

/-- The conservation invariant for one call site: its current counters
are exactly the sum of the sizes stashed in the live records it owns
(modulo 2 ^ 64), and a site with no record owns no live bytes. -/
def balanced_for (s : MemState) (f : Nat) : Prop :=
  (stats_of s f).current_alloc =
    owned_sum PtrDescr.alloc s.ptrs f % 18446744073709551616 ∧
  (stats_of s f).current_req =
    owned_sum PtrDescr.req s.ptrs f % 18446744073709551616 ∧
  (find_func s.funcs f = none →
    owned_sum PtrDescr.alloc s.ptrs f = 0 ∧ owned_sum PtrDescr.req s.ptrs f = 0)

/-- Side conditions under which one event application keeps call site
`f`'s lifetime counters exact: an allocation attributed to `f` must
carry a granted value decoding to a nonnegative `int`, and the 64-bit
lifetime counters must have room for the added bytes. Any other event
needs no condition. -/
def step_ok (s : MemState) (f : Nat) : Event → Bool
  | .alloc cs _ rq al =>
      if cs = f then
        decide (al % 4294967296 < 2147483648 ∧
          (stats_of s f).total_alloc + al % 4294967296 < 18446744073709551616 ∧
          (stats_of s f).total_req + rq % 4294967296 < 18446744073709551616)
      else true
  | _ => true

/-
  Plumbing lemmas: coherence of first-match lookup with first-match
  update / replace / remove on the two association lists, and the
  numeric facts about the C conversions.
-/

theorem find_func_update_self (g : FuncStats → FuncStats) (l : List (Nat × FuncStats)) (f : Nat) :
    find_func (update_func g l f) f = (find_func l f).map g := by
  induction l with
  | nil => rfl
  | cons hd t ih =>
    obtain ⟨k, fd⟩ := hd
    by_cases hk : k = f
    · simp [find_func, update_func, hk]
    · simp [find_func, update_func, hk, ih]

theorem find_func_update_ne (g : FuncStats → FuncStats) (l : List (Nat × FuncStats))
    {f j : Nat} (h : f ≠ j) :
    find_func (update_func g l j) f = find_func l f := by
  induction l with
  | nil => rfl
  | cons hd t ih =>
    obtain ⟨k, fd⟩ := hd
    by_cases hk : k = j
    · subst hk
      simp [find_func, update_func, Ne.symm h]
    · by_cases hf : k = f <;> simp [find_func, update_func, hk, hf, h, ih]

theorem update_func_none (g : FuncStats → FuncStats) {l : List (Nat × FuncStats)} {f : Nat}
    (h : find_func l f = none) : update_func g l f = l := by
  induction l with
  | nil => rfl
  | cons hd t ih =>
    obtain ⟨k, fd⟩ := hd
    by_cases hk : k = f
    · simp [find_func, hk] at h
    · simp [find_func, hk] at h
      simp [update_func, hk, ih h]

theorem find_func_mem {l : List (Nat × FuncStats)} {f : Nat} {fd : FuncStats}
    (h : find_func l f = some fd) : (f, fd) ∈ l := by
  induction l with
  | nil => simp [find_func] at h
  | cons hd t ih =>
    obtain ⟨k, fd0⟩ := hd
    by_cases hk : k = f
    · subst hk
      simp [find_func] at h
      simp [h]
    · simp [find_func, hk] at h
      exact List.mem_cons_of_mem _ (ih h)

theorem mem_update_func {g : FuncStats → FuncStats} {l : List (Nat × FuncStats)} {f : Nat}
    {pr : Nat × FuncStats} (h : pr ∈ update_func g l f) :
    pr ∈ l ∨ ∃ fd, find_func l f = some fd ∧ pr = (f, g fd) := by
  induction l with
  | nil => simp [update_func] at h
  | cons hd t ih =>
    obtain ⟨k, fd0⟩ := hd
    by_cases hk : k = f
    · subst hk
      simp [update_func] at h
      rcases h with h | h
      · exact Or.inr ⟨fd0, by simp [find_func], h⟩
      · exact Or.inl (List.mem_cons_of_mem _ h)
    · simp [update_func, hk] at h
      rcases h with h | h
      · exact Or.inl (by simp [h])
      · rcases ih h with h2 | ⟨fd, hfd, hpr⟩
        · exact Or.inl (List.mem_cons_of_mem _ h2)
        · exact Or.inr ⟨fd, by simp [find_func, hk, hfd], hpr⟩

theorem find_ptr_replace_self (d : PtrDescr) {l : List (Nat × PtrDescr)} {p : Nat} {e : PtrDescr}
    (h : find_ptr l p = some e) : find_ptr (replace_ptr d l p) p = some d := by
  induction l with
  | nil => simp [find_ptr] at h
  | cons hd t ih =>
    obtain ⟨k, e0⟩ := hd
    by_cases hk : k = p
    · simp [replace_ptr, find_ptr, hk]
    · simp [find_ptr, hk] at h
      simp [replace_ptr, find_ptr, hk, ih h]

theorem find_ptr_replace_ne (d : PtrDescr) (l : List (Nat × PtrDescr)) {p q : Nat}
    (h : q ≠ p) : find_ptr (replace_ptr d l p) q = find_ptr l q := by
  induction l with
  | nil => rfl
  | cons hd t ih =>
    obtain ⟨k, e0⟩ := hd
    by_cases hk : k = p
    · subst hk
      simp [replace_ptr, find_ptr, Ne.symm h]
    · by_cases hq : k = q <;> simp [replace_ptr, find_ptr, hk, hq, h, ih]

theorem keys_replace_ptr (d : PtrDescr) {l : List (Nat × PtrDescr)} {p : Nat} {e : PtrDescr}
    (h : find_ptr l p = some e) :
    (replace_ptr d l p).map Prod.fst = l.map Prod.fst := by
  induction l with
  | nil => rfl
  | cons hd t ih =>
    obtain ⟨k, e0⟩ := hd
    by_cases hk : k = p
    · subst hk
      simp [replace_ptr]
    · simp [find_ptr, hk] at h
      simp [replace_ptr, hk, ih h]

theorem find_ptr_none_not_mem {l : List (Nat × PtrDescr)} {p : Nat}
    (h : find_ptr l p = none) : p ∉ l.map Prod.fst := by
  induction l with
  | nil => simp
  | cons hd t ih =>
    obtain ⟨k, e0⟩ := hd
    by_cases hk : k = p
    · simp [find_ptr, hk] at h
    · simp [find_ptr, hk] at h
      intro hm
      rw [List.map_cons] at hm
      rcases List.mem_cons.mp hm with h1 | h1
      · exact hk h1.symm
      · exact ih h h1

theorem keys_remove_ptr_sublist (l : List (Nat × PtrDescr)) (p : Nat) :
    List.Sublist ((remove_ptr l p).map Prod.fst) (l.map Prod.fst) := by
  induction l with
  | nil => simp [remove_ptr]
  | cons hd t ih =>
    obtain ⟨k, e0⟩ := hd
    by_cases hk : k = p
    · simp only [remove_ptr, hk, if_pos rfl, List.map_cons]
      exact List.sublist_cons_self _ _
    · simp only [remove_ptr, hk, if_false, List.map_cons, ite_false]
      exact List.Sublist.cons₂ _ ih

theorem not_mem_find_ptr_none {l : List (Nat × PtrDescr)} {p : Nat}
    (h : p ∉ l.map Prod.fst) : find_ptr l p = none := by
  induction l with
  | nil => rfl
  | cons hd t ih =>
    obtain ⟨k, e0⟩ := hd
    have hk : ¬k = p := by
      intro he
      exact h (by rw [List.map_cons, he]; exact List.mem_cons_self _ _)
    have ht : p ∉ t.map Prod.fst := by
      intro hm
      exact h (by rw [List.map_cons]; exact List.mem_cons_of_mem _ hm)
    simp [find_ptr, hk, ih ht]

theorem find_ptr_remove_self {l : List (Nat × PtrDescr)} {p : Nat}
    (h : (l.map Prod.fst).Nodup) : find_ptr (remove_ptr l p) p = none := by
  induction l with
  | nil => rfl
  | cons hd t ih =>
    obtain ⟨k, e0⟩ := hd
    rw [List.map_cons] at h
    have h1 : k ∉ t.map Prod.fst := (List.nodup_cons.mp h).1
    have h2 : (t.map Prod.fst).Nodup := (List.nodup_cons.mp h).2
    by_cases hk : k = p
    · subst hk
      simp only [remove_ptr, if_pos rfl]
      exact not_mem_find_ptr_none h1
    · simp only [remove_ptr, hk, ite_false, find_ptr, if_neg hk]
      exact ih h2

/-
  Aggregate-sum accounting lemmas.
-/

theorem mem_le_sum_nat : ∀ {l : List Nat} {x : Nat}, x ∈ l → x ≤ l.sum := by
  intro l
  induction l with
  | nil => intro x h; simp at h
  | cons hd t ih =>
    intro x h
    rcases List.mem_cons.mp h with h1 | h1
    · subst h1; simp [List.sum_cons]
    · have := ih h1
      simp [List.sum_cons]; omega

theorem owned_sum_cons (w : PtrDescr → Nat) (p : Nat) (d : PtrDescr)
    (l : List (Nat × PtrDescr)) (f : Nat) :
    owned_sum w ((p, d) :: l) f = (if d.func = f then w d else 0) + owned_sum w l f := by
  simp [owned_sum]

theorem owned_sum_replace (w : PtrDescr → Nat) (d : PtrDescr) {l : List (Nat × PtrDescr)}
    {p : Nat} {e : PtrDescr} (h : find_ptr l p = some e) (f : Nat) :
    owned_sum w (replace_ptr d l p) f + (if e.func = f then w e else 0) =
      owned_sum w l f + (if d.func = f then w d else 0) := by
  induction l with
  | nil => simp [find_ptr] at h
  | cons hd t ih =>
    obtain ⟨k, e0⟩ := hd
    by_cases hk : k = p
    · simp only [find_ptr, if_pos hk] at h
      cases h
      simp only [replace_ptr, if_pos hk, owned_sum_cons]
      omega
    · simp only [find_ptr, if_neg hk] at h
      simp only [replace_ptr, if_neg hk, owned_sum_cons]
      have := ih h
      omega

theorem owned_sum_remove (w : PtrDescr → Nat) {l : List (Nat × PtrDescr)}
    {p : Nat} {e : PtrDescr} (h : find_ptr l p = some e) (f : Nat) :
    owned_sum w (remove_ptr l p) f + (if e.func = f then w e else 0) = owned_sum w l f := by
  induction l with
  | nil => simp [find_ptr] at h
  | cons hd t ih =>
    obtain ⟨k, e0⟩ := hd
    by_cases hk : k = p
    · simp only [find_ptr, if_pos hk] at h
      cases h
      simp only [remove_ptr, if_pos hk, owned_sum_cons]
      omega
    · simp only [find_ptr, if_neg hk] at h
      simp only [remove_ptr, if_neg hk, owned_sum_cons]
      have := ih h
      omega

theorem found_le_owned_sum (w : PtrDescr → Nat) {l : List (Nat × PtrDescr)}
    {p : Nat} {e : PtrDescr} (h : find_ptr l p = some e) (f : Nat) :
    (if e.func = f then w e else 0) ≤ owned_sum w l f := by
  have := owned_sum_remove w h f
  omega

theorem mem_le_states_sum {l : List (Nat × FuncStats)} {pr : Nat × FuncStats}
    (h : pr ∈ l) : pr.2.total_alloc + pr.2.total_req ≤ states_sum l := by
  have : pr.2.total_alloc + pr.2.total_req ∈
      l.map (fun q => q.2.total_alloc + q.2.total_req) :=
    List.mem_map_of_mem _ h
  exact mem_le_sum_nat this

theorem states_sum_update (g : FuncStats → FuncStats) {l : List (Nat × FuncStats)} {f : Nat}
    {fd : FuncStats} (h : find_func l f = some fd) :
    states_sum (update_func g l f) + (fd.total_alloc + fd.total_req) =
      states_sum l + ((g fd).total_alloc + (g fd).total_req) := by
  induction l with
  | nil => simp [find_func] at h
  | cons hd t ih =>
    obtain ⟨k, fd0⟩ := hd
    by_cases hk : k = f
    · simp only [find_func, if_pos hk] at h
      cases h
      simp only [update_func, if_pos hk, states_sum, List.map_cons, List.sum_cons]
      omega
    · simp only [find_func, if_neg hk] at h
      simp only [update_func, if_neg hk, states_sum, List.map_cons, List.sum_cons]
      have := ih h
      simp only [states_sum] at this
      omega

theorem states_sum_update_const (g : FuncStats → FuncStats)
    (hg : ∀ fd, (g fd).total_alloc = fd.total_alloc ∧ (g fd).total_req = fd.total_req)
    (l : List (Nat × FuncStats)) (f : Nat) :
    states_sum (update_func g l f) = states_sum l := by
  cases hfind : find_func l f with
  | none => rw [update_func_none g hfind]
  | some fd =>
    have := states_sum_update g hfind
    have h2 := hg fd
    omega

theorem states_sum_cons (k : Nat) (fd : FuncStats) (l : List (Nat × FuncStats)) :
    states_sum ((k, fd) :: l) = fd.total_alloc + fd.total_req + states_sum l := by
  simp [states_sum]

/-
  Numeric facts about the modelled C conversions.
-/

theorem u64_of_int_lt (i : Int) : u64_of_int i < 18446744073709551616 := by
  unfold u64_of_int
  omega

theorem to_u32_eq (v : Nat) : to_u32 v = v % 4294967296 := rfl

theorem u64_of_int_nonneg_decode {v : Nat} (h : v % 4294967296 < 2147483648) :
    u64_of_int (to_i32 v) = v % 4294967296 := by
  unfold u64_of_int to_i32
  rw [if_pos h]
  omega

theorem sub64_exact {a b : Nat} (hba : b ≤ a) (ha : a < 18446744073709551616) :
    sub64 a b = a - b := by
  unfold sub64
  omega

theorem sub64_mod_left {a b : Nat} (hba : b ≤ a) :
    sub64 (a % 18446744073709551616) b = (a - b) % 18446744073709551616 := by
  unfold sub64
  omega

theorem add64_mod_left (a b : Nat) :
    add64 (a % 18446744073709551616) b = (a + b) % 18446744073709551616 := by
  unfold add64
  omega

theorem as_signed64_sub64 {a b : Nat} (ha : a < 9223372036854775808)
    (hb : b < 9223372036854775808) :
    as_signed64 (sub64 a b) = (a : Int) - (b : Int) := by
  unfold as_signed64 sub64
  split <;> omega

/-
  Characterization of one event application, seen through stats_of and
  find_ptr.
-/

theorem apply_events_nil (s : MemState) : apply_events s [] = s := rfl

theorem apply_events_cons (s : MemState) (e : Event) (es : List Event) :
    apply_events s (e :: es) = apply_events (apply_event s e) es := rfl

theorem apply_events_append (s : MemState) (es1 es2 : List Event) :
    apply_events s (es1 ++ es2) = apply_events (apply_events s es1) es2 :=
  List.foldl_append _ _ _ _

theorem stats_of_alloc_self (s : MemState) (f p rq al : Nat) :
    stats_of (apply_event s (.alloc f p rq al)) f =
      alloc_update (u64_of_int (to_i32 al)) (to_u32 rq) (stats_of s f) := by
  show stats_of (add_kmalloc s f p (to_u32 rq) (to_i32 al)) f = _
  unfold add_kmalloc stats_of
  cases hfind : find_func s.funcs f with
  | none => simp [hfind, find_func]
  | some fd => simp [hfind, find_func_update_self]

theorem stats_of_alloc_ne (s : MemState) {g f : Nat} (p rq al : Nat) (h : g ≠ f) :
    stats_of (apply_event s (.alloc f p rq al)) g = stats_of s g := by
  show stats_of (add_kmalloc s f p (to_u32 rq) (to_i32 al)) g = _
  unfold add_kmalloc stats_of
  cases hfind : find_func s.funcs f with
  | none => simp [hfind, find_func, Ne.symm h]
  | some fd => simp [hfind, find_func_update_ne _ _ h]

theorem apply_event_free_absent (s : MemState) {p : Nat}
    (h : find_ptr s.ptrs p = none) : apply_event s (.free p) = s := by
  show remove_kmalloc s p = s
  unfold remove_kmalloc
  simp [h]

theorem apply_event_free_found (s : MemState) {p : Nat} {e : PtrDescr}
    (h : find_ptr s.ptrs p = some e) :
    apply_event s (.free p) =
      ⟨update_func (sub_stats e) s.funcs e.func, remove_ptr s.ptrs p⟩ := by
  show remove_kmalloc s p = _
  unfold remove_kmalloc
  simp [h]

theorem stats_of_free_ne (s : MemState) {p : Nat} {e : PtrDescr} {g : Nat}
    (h : find_ptr s.ptrs p = some e) (hg : g ≠ e.func) :
    stats_of (apply_event s (.free p)) g = stats_of s g := by
  rw [apply_event_free_found s h]
  unfold stats_of
  simp [find_func_update_ne _ _ hg]

theorem stats_of_free_self (s : MemState) {p : Nat} {e : PtrDescr} {fd : FuncStats}
    (h : find_ptr s.ptrs p = some e) (hfd : find_func s.funcs e.func = some fd) :
    stats_of (apply_event s (.free p)) e.func = sub_stats e fd := by
  rw [apply_event_free_found s h]
  unfold stats_of
  simp [find_func_update_self, hfd]

theorem funcs_free_self_absent (s : MemState) {p : Nat} {e : PtrDescr}
    (h : find_ptr s.ptrs p = some e) (hfd : find_func s.funcs e.func = none) :
    (apply_event s (.free p)).funcs = s.funcs := by
  rw [apply_event_free_found s h]
  exact update_func_none _ hfd

theorem find_ptr_alloc_self (s : MemState) (f p rq al : Nat) :
    find_ptr (apply_event s (.alloc f p rq al)).ptrs p =
      some ⟨f, u64_of_int (to_i32 al), to_u32 rq⟩ := by
  show find_ptr (add_kmalloc s f p (to_u32 rq) (to_i32 al)).ptrs p = _
  unfold add_kmalloc
  cases hfind : find_ptr s.ptrs p with
  | none => simp [hfind, find_ptr]
  | some e => simp [hfind, find_ptr_replace_self _ hfind]

theorem find_ptr_alloc_ne (s : MemState) (f : Nat) {p q : Nat} (rq al : Nat) (h : q ≠ p) :
    find_ptr (apply_event s (.alloc f p rq al)).ptrs q = find_ptr s.ptrs q := by
  show find_ptr (add_kmalloc s f p (to_u32 rq) (to_i32 al)).ptrs q = _
  unfold add_kmalloc
  cases hfind : find_ptr s.ptrs p with
  | none => simp [hfind, find_ptr, Ne.symm h]
  | some e => simp [hfind, find_ptr_replace_ne _ _ h]

theorem keys_nodup_step (s : MemState) (e : Event)
    (h : (s.ptrs.map Prod.fst).Nodup) :
    ((apply_event s e).ptrs.map Prod.fst).Nodup := by
  cases e with
  | other => exact h
  | free p =>
    cases hfind : find_ptr s.ptrs p with
    | none => rw [apply_event_free_absent s hfind]; exact h
    | some e0 =>
      rw [apply_event_free_found s hfind]
      exact (keys_remove_ptr_sublist s.ptrs p).nodup h
  | alloc f p rq al =>
    show ((add_kmalloc s f p (to_u32 rq) (to_i32 al)).ptrs.map Prod.fst).Nodup
    unfold add_kmalloc
    cases hfind : find_ptr s.ptrs p with
    | none =>
      simp only [hfind, List.map_cons]
      exact List.nodup_cons.mpr ⟨find_ptr_none_not_mem hfind, h⟩
    | some e0 =>
      simp only [hfind]
      rw [keys_replace_ptr _ hfind]
      exact h

theorem keys_nodup_run (es : List Event) (s : MemState)
    (h : (s.ptrs.map Prod.fst).Nodup) :
    ((apply_events s es).ptrs.map Prod.fst).Nodup := by
  induction es generalizing s with
  | nil => exact h
  | cons e t ih =>
    rw [apply_events_cons]
    exact ih _ (keys_nodup_step s e h)

theorem add64_exact {a b : Nat} (h : a + b < 18446744073709551616) :
    add64 a b = a + b := by
  unfold add64
  omega

theorem u64_of_int_to_i32 (v : Nat) : u64_of_int (to_i32 v) = sign_ext32 v := by
  unfold u64_of_int to_i32 sign_ext32
  split <;> omega

theorem find_func_alloc_self (s : MemState) (f p rq al : Nat) :
    find_func (apply_event s (.alloc f p rq al)).funcs f =
      some (alloc_update (u64_of_int (to_i32 al)) (to_u32 rq) (stats_of s f)) := by
  show find_func (add_kmalloc s f p (to_u32 rq) (to_i32 al)).funcs f = _
  unfold add_kmalloc stats_of
  cases hfind : find_func s.funcs f with
  | none => simp [hfind, find_func]
  | some fd => simp [hfind, find_func_update_self]

theorem find_func_alloc_ne (s : MemState) {g f : Nat} (p rq al : Nat) (h : g ≠ f) :
    find_func (apply_event s (.alloc f p rq al)).funcs g = find_func s.funcs g := by
  show find_func (add_kmalloc s f p (to_u32 rq) (to_i32 al)).funcs g = _
  unfold add_kmalloc
  cases hfind : find_func s.funcs f with
  | none => simp [hfind, find_func, Ne.symm h]
  | some fd => simp [hfind, find_func_update_ne _ _ h]

theorem ptrs_alloc_found (s : MemState) (f : Nat) {p : Nat} (rq al : Nat) {e : PtrDescr}
    (hfind : find_ptr s.ptrs p = some e) :
    (apply_event s (.alloc f p rq al)).ptrs =
      replace_ptr ⟨f, u64_of_int (to_i32 al), to_u32 rq⟩ s.ptrs p := by
  show (add_kmalloc s f p (to_u32 rq) (to_i32 al)).ptrs = _
  unfold add_kmalloc
  simp [hfind]

theorem ptrs_alloc_absent (s : MemState) (f : Nat) {p : Nat} (rq al : Nat)
    (hfind : find_ptr s.ptrs p = none) :
    (apply_event s (.alloc f p rq al)).ptrs =
      (p, ⟨f, u64_of_int (to_i32 al), to_u32 rq⟩) :: s.ptrs := by
  show (add_kmalloc s f p (to_u32 rq) (to_i32 al)).ptrs = _
  unfold add_kmalloc
  simp [hfind]

theorem owned_sum_alloc (s : MemState) (w : PtrDescr → Nat) (cs p rq al f : Nat)
    (hok : event_ok f s (.alloc cs p rq al) = true) :
    owned_sum w (apply_event s (.alloc cs p rq al)).ptrs f =
      owned_sum w s.ptrs f +
        (if cs = f then w ⟨cs, u64_of_int (to_i32 al), to_u32 rq⟩ else 0) := by
  cases hfind : find_ptr s.ptrs p with
  | none =>
    rw [ptrs_alloc_absent s cs rq al hfind, owned_sum_cons]
    dsimp only
    omega
  | some e0 =>
    have hne : e0.func ≠ f := by
      simp [event_ok, hfind] at hok
      exact hok
    rw [ptrs_alloc_found s cs rq al hfind]
    have := owned_sum_replace w ⟨cs, u64_of_int (to_i32 al), to_u32 rq⟩ hfind f
    rw [if_neg hne] at this
    dsimp only at this
    omega

theorem owned_sum_zero_of_all (w : PtrDescr → Nat) {l : List (Nat × PtrDescr)} {f : Nat}
    (h : (l.all fun pe => ! (pe.2.func == f)) = true) : owned_sum w l f = 0 := by
  induction l with
  | nil => rfl
  | cons hd t ih =>
    obtain ⟨k, e0⟩ := hd
    rw [List.all_cons] at h
    have h1 : e0.func ≠ f := by
      have := (Bool.and_eq_true _ _).mp h
      simpa using this.1
    have h2 := ((Bool.and_eq_true _ _).mp h).2
    rw [show ((k, e0) :: t) = ((k, e0) :: t) from rfl, owned_sum_cons, if_neg h1, ih h2]

/-
  The conservation invariant (balanced_for) is preserved by every event
  that does not overwrite a live record owned by the watched site.
-/

theorem balanced_step (s : MemState) (e : Event) (f : Nat)
    (hb : balanced_for s f) (hok : event_ok f s e = true) :
    balanced_for (apply_event s e) f := by
  obtain ⟨hca, hcr, hz⟩ := hb
  cases e with
  | other => exact ⟨hca, hcr, hz⟩
  | alloc cs p rq al =>
    have hoa := owned_sum_alloc s PtrDescr.alloc cs p rq al f hok
    have hor := owned_sum_alloc s PtrDescr.req cs p rq al f hok
    by_cases hcs : cs = f
    · subst hcs
      rw [if_pos rfl] at hoa hor
      dsimp only at hoa hor
      refine ⟨?_, ?_, ?_⟩
      · rw [stats_of_alloc_self, hoa]
        show add64 (stats_of s cs).current_alloc (u64_of_int (to_i32 al)) = _
        rw [hca]
        unfold add64
        omega
      · rw [stats_of_alloc_self, hor]
        show add64 (stats_of s cs).current_req (to_u32 rq) = _
        rw [hcr]
        unfold add64
        omega
      · intro hnone
        rw [find_func_alloc_self] at hnone
        cases hnone
    · rw [if_neg hcs] at hoa hor
      refine ⟨?_, ?_, ?_⟩
      · rw [stats_of_alloc_ne s p rq al (Ne.symm hcs), hoa, Nat.add_zero, hca]
      · rw [stats_of_alloc_ne s p rq al (Ne.symm hcs), hor, Nat.add_zero, hcr]
      · intro hnone
        rw [find_func_alloc_ne s p rq al (Ne.symm hcs)] at hnone
        rw [hoa, hor, Nat.add_zero, Nat.add_zero]
        exact hz hnone
  | free p =>
    cases hfind : find_ptr s.ptrs p with
    | none =>
      rw [apply_event_free_absent s hfind]
      exact ⟨hca, hcr, hz⟩
    | some e0 =>
      have hrem_a := owned_sum_remove PtrDescr.alloc hfind f
      have hrem_r := owned_sum_remove PtrDescr.req hfind f
      have hptrs : (apply_event s (.free p)).ptrs = remove_ptr s.ptrs p := by
        rw [apply_event_free_found s hfind]
      by_cases hef : e0.func = f
      · rw [if_pos hef] at hrem_a hrem_r
        have hle_a : e0.alloc ≤ owned_sum PtrDescr.alloc s.ptrs f := by
          have := found_le_owned_sum PtrDescr.alloc hfind f
          rw [if_pos hef] at this
          exact this
        have hle_r : e0.req ≤ owned_sum PtrDescr.req s.ptrs f := by
          have := found_le_owned_sum PtrDescr.req hfind f
          rw [if_pos hef] at this
          exact this
        cases hfd : find_func s.funcs f with
        | none =>
          have h0 := hz hfd
          have hfuncs : (apply_event s (.free p)).funcs = s.funcs :=
            funcs_free_self_absent s hfind (hef ▸ hfd)
          have hstats : stats_of (apply_event s (.free p)) f = stats_of s f := by
            unfold stats_of
            rw [hfuncs]
          refine ⟨?_, ?_, ?_⟩
          · rw [hstats, hptrs, hca]
            omega
          · rw [hstats, hptrs, hcr]
            omega
          · intro _
            rw [hptrs]
            omega
        | some fd =>
          have hfd2 : find_func s.funcs e0.func = some fd := by rw [hef]; exact hfd
          have hstats : stats_of (apply_event s (.free p)) f = sub_stats e0 fd := by
            have := stats_of_free_self s hfind hfd2
            rw [hef] at this
            exact this
          have hsf : stats_of s f = fd := by
            unfold stats_of
            rw [hfd]
          refine ⟨?_, ?_, ?_⟩
          · rw [hstats, hptrs]
            show sub64 fd.current_alloc e0.alloc = _
            have : fd.current_alloc =
                owned_sum PtrDescr.alloc s.ptrs f % 18446744073709551616 := by
              rw [← hsf]; exact hca
            rw [this, sub64_mod_left hle_a]
            congr 1
            omega
          · rw [hstats, hptrs]
            show sub64 fd.current_req e0.req = _
            have : fd.current_req =
                owned_sum PtrDescr.req s.ptrs f % 18446744073709551616 := by
              rw [← hsf]; exact hcr
            rw [this, sub64_mod_left hle_r]
            congr 1
            omega
          · intro hnone
            rw [apply_event_free_found s hfind] at hnone
            dsimp only at hnone
            rw [hef, find_func_update_self, hfd] at hnone
            cases hnone
      · rw [if_neg hef] at hrem_a hrem_r
        have hstats : stats_of (apply_event s (.free p)) f = stats_of s f :=
          stats_of_free_ne s hfind fun h => hef h.symm
        refine ⟨?_, ?_, ?_⟩
        · rw [hstats, hptrs, hca]
          omega
        · rw [hstats, hptrs, hcr]
          omega
        · intro hnone
          rw [apply_event_free_found s hfind] at hnone
          dsimp only at hnone
          rw [find_func_update_ne _ _ (fun h => hef h.symm)] at hnone
          have := hz hnone
          rw [hptrs]
          omega

theorem balanced_run (es : List Event) (s : MemState) (f : Nat)
    (hb : balanced_for s f) (hnr : no_reuse_for f s es = true) :
    balanced_for (apply_events s es) f := by
  induction es generalizing s with
  | nil => exact hb
  | cons e t ih =>
    rw [no_reuse_for] at hnr
    have h1 := ((Bool.and_eq_true _ _).mp hnr).1
    have h2 := ((Bool.and_eq_true _ _).mp hnr).2
    rw [apply_events_cons]
    exact ih _ (balanced_step s e f hb h1) h2

theorem balanced_for_empty (f : Nat) : balanced_for MemState.empty f := by
  refine ⟨rfl, rfl, fun _ => ⟨rfl, rfl⟩⟩

/-
  The high-water-mark invariant (good_state) is preserved by every
  event, as long as granted values decode to nonnegative ints and the
  64-bit counters have room (tracked through states_sum and the event
  budget).
-/

theorem funcs_alloc_found (s : MemState) {f : Nat} (p rq al : Nat) {fd : FuncStats}
    (hfd : find_func s.funcs f = some fd) :
    (apply_event s (.alloc f p rq al)).funcs =
      update_func (alloc_update (u64_of_int (to_i32 al)) (to_u32 rq)) s.funcs f := by
  show (add_kmalloc s f p (to_u32 rq) (to_i32 al)).funcs = _
  unfold add_kmalloc
  simp [hfd]

theorem funcs_alloc_absent (s : MemState) {f : Nat} (p rq al : Nat)
    (hfd : find_func s.funcs f = none) :
    (apply_event s (.alloc f p rq al)).funcs =
      (f, alloc_update (u64_of_int (to_i32 al)) (to_u32 rq) FuncStats.zero) :: s.funcs := by
  show (add_kmalloc s f p (to_u32 rq) (to_i32 al)).funcs = _
  unfold add_kmalloc
  simp [hfd]

theorem owned_sum_alloc_le (s : MemState) (w : PtrDescr → Nat) (cs p rq al g : Nat) :
    owned_sum w (apply_event s (.alloc cs p rq al)).ptrs g ≤
      owned_sum w s.ptrs g +
        (if cs = g then w ⟨cs, u64_of_int (to_i32 al), to_u32 rq⟩ else 0) := by
  cases hfind : find_ptr s.ptrs p with
  | none =>
    rw [ptrs_alloc_absent s cs rq al hfind, owned_sum_cons]
    dsimp only
    omega
  | some e0 =>
    rw [ptrs_alloc_found s cs rq al hfind]
    have := owned_sum_replace w ⟨cs, u64_of_int (to_i32 al), to_u32 rq⟩ hfind g
    dsimp only at this
    omega

theorem alloc_update_fields (a r : Nat) (fd : FuncStats) :
    (alloc_update a r fd).total_alloc = add64 fd.total_alloc a ∧
    (alloc_update a r fd).total_req = add64 fd.total_req r ∧
    (alloc_update a r fd).current_alloc = add64 fd.current_alloc a ∧
    (alloc_update a r fd).current_req = add64 fd.current_req r ∧
    ((alloc_update a r fd).max_alloc = add64 fd.current_alloc a ∨
      (alloc_update a r fd).max_alloc = fd.max_alloc) ∧
    ((alloc_update a r fd).max_req = add64 fd.current_req r ∨
      (alloc_update a r fd).max_req = fd.max_req) ∧
    fd.max_alloc ≤ (alloc_update a r fd).max_alloc ∧
    add64 fd.current_alloc a ≤ (alloc_update a r fd).max_alloc ∧
    fd.max_req ≤ (alloc_update a r fd).max_req ∧
    add64 fd.current_req r ≤ (alloc_update a r fd).max_req := by
  unfold alloc_update
  dsimp only
  refine ⟨rfl, rfl, rfl, rfl, ?_, ?_, ?_, ?_, ?_, ?_⟩ <;> split <;> omega

theorem good_step (s : MemState) (e : Event)
    (hg : good_state s)
    (hnn : allocs_nonneg [e] = true)
    (hbud : states_sum s.funcs + event_budget e < 18446744073709551616) :
    good_state (apply_event s e) ∧
      states_sum (apply_event s e).funcs ≤ states_sum s.funcs + event_budget e := by
  obtain ⟨hmem, hown⟩ := hg
  cases e with
  | other =>
    refine ⟨⟨hmem, hown⟩, ?_⟩
    show states_sum s.funcs ≤ states_sum s.funcs + event_budget Event.other
    omega
  | free p =>
    cases hfind : find_ptr s.ptrs p with
    | none =>
      rw [apply_event_free_absent s hfind]
      exact ⟨⟨hmem, hown⟩, by omega⟩
    | some e0 =>
      have hstate := apply_event_free_found s hfind
      have hsum : states_sum (apply_event s (.free p)).funcs = states_sum s.funcs := by
        rw [hstate]
        exact states_sum_update_const (sub_stats e0) (fun fd => ⟨rfl, rfl⟩) _ _
      refine ⟨⟨?_, ?_⟩, by rw [hsum]; omega⟩
      · intro pr hpr
        rw [hstate] at hpr
        dsimp only at hpr
        rcases mem_update_func hpr with h1 | ⟨fd, hfd, hpr2⟩
        · exact hmem pr h1
        · subst hpr2
          have hcomp := hmem (e0.func, fd) (find_func_mem hfd)
          have hstats : stats_of s e0.func = fd := by
            unfold stats_of
            rw [hfd]
          have h1 := hown e0.func
          rw [hstats] at h1
          have h2 : e0.alloc ≤ owned_sum PtrDescr.alloc s.ptrs e0.func := by
            have := found_le_owned_sum PtrDescr.alloc hfind e0.func
            rw [if_pos rfl] at this
            exact this
          have h3 : e0.req ≤ owned_sum PtrDescr.req s.ptrs e0.func := by
            have := found_le_owned_sum PtrDescr.req hfind e0.func
            rw [if_pos rfl] at this
            exact this
          have hsumb : fd.total_alloc + fd.total_req ≤ states_sum s.funcs :=
            mem_le_states_sum (find_func_mem hfd)
          dsimp only at hcomp
          have hcaM : fd.current_alloc < 18446744073709551616 := by omega
          have hcrM : fd.current_req < 18446744073709551616 := by omega
          dsimp only [sub_stats]
          rw [sub64_exact (by omega) hcaM, sub64_exact (by omega) hcrM]
          omega
      · intro g
        rw [hstate]
        dsimp only
        have hrem_a := owned_sum_remove PtrDescr.alloc hfind g
        have hrem_r := owned_sum_remove PtrDescr.req hfind g
        by_cases hgf : g = e0.func
        · rw [hgf] at hrem_a hrem_r ⊢
          rw [if_pos rfl] at hrem_a hrem_r
          cases hfd : find_func s.funcs e0.func with
          | none =>
            have hstats :
                stats_of ⟨update_func (sub_stats e0) s.funcs e0.func,
                    remove_ptr s.ptrs p⟩ e0.func =
                  stats_of s e0.func := by
              unfold stats_of
              dsimp only
              rw [update_func_none _ hfd]
            rw [hstats]
            have h1 := hown e0.func
            constructor <;> omega
          | some fd =>
            have hstats :
                stats_of ⟨update_func (sub_stats e0) s.funcs e0.func,
                    remove_ptr s.ptrs p⟩ e0.func =
                  sub_stats e0 fd := by
              unfold stats_of
              dsimp only
              rw [find_func_update_self, hfd]
              rfl
            rw [hstats]
            have hsf : stats_of s e0.func = fd := by
              unfold stats_of
              rw [hfd]
            have h1 := hown e0.func
            rw [hsf] at h1
            have hcomp := hmem (e0.func, fd) (find_func_mem hfd)
            dsimp only at hcomp
            have hsumb : fd.total_alloc + fd.total_req ≤ states_sum s.funcs :=
              mem_le_states_sum (find_func_mem hfd)
            have hcaM : fd.current_alloc < 18446744073709551616 := by omega
            have hcrM : fd.current_req < 18446744073709551616 := by omega
            dsimp only [sub_stats]
            rw [sub64_exact (by omega) hcaM, sub64_exact (by omega) hcrM]
            constructor <;> omega
        · rw [if_neg (fun h => hgf h.symm)] at hrem_a hrem_r
          have hstats :
              stats_of ⟨update_func (sub_stats e0) s.funcs e0.func,
                  remove_ptr s.ptrs p⟩ g =
                stats_of s g := by
            unfold stats_of
            dsimp only
            rw [find_func_update_ne _ _ hgf]
          rw [hstats]
          have h1 := hown g
          constructor <;> omega
  | alloc cs p rq al =>
    simp only [allocs_nonneg, List.all_cons, List.all_nil, Bool.and_true,
      decide_eq_true_eq] at hnn
    have ha64 : u64_of_int (to_i32 al) = al % 4294967296 :=
      u64_of_int_nonneg_decode hnn
    have hrq : to_u32 rq = rq % 4294967296 := rfl
    simp only [event_budget] at hbud
    have hstats_self := stats_of_alloc_self s cs p rq al
    have hcur_bound : (stats_of s cs).current_alloc + (stats_of s cs).current_req ≤
        states_sum s.funcs := by
      unfold stats_of
      cases hfd : find_func s.funcs cs with
      | none =>
        dsimp only
        rw [show FuncStats.zero.current_alloc = 0 from rfl,
          show FuncStats.zero.current_req = 0 from rfl]
        omega
      | some fd =>
        dsimp only
        have hcomp := hmem (cs, fd) (find_func_mem hfd)
        have hsumb : fd.total_alloc + fd.total_req ≤ states_sum s.funcs :=
          mem_le_states_sum (find_func_mem hfd)
        dsimp only at hcomp
        omega
    have hbudget_goal :
        states_sum (apply_event s (.alloc cs p rq al)).funcs ≤
          states_sum s.funcs + (al % 4294967296 + rq % 4294967296) := by
      cases hfd : find_func s.funcs cs with
      | none =>
        rw [funcs_alloc_absent s p rq al hfd, ha64, hrq, states_sum_cons]
        have hf := alloc_update_fields (al % 4294967296) (rq % 4294967296) FuncStats.zero
        rw [show FuncStats.zero.total_alloc = 0 from rfl,
          show FuncStats.zero.total_req = 0 from rfl,
          add64_exact (by omega), add64_exact (by omega)] at hf
        omega
      | some fd =>
        rw [funcs_alloc_found s p rq al hfd, ha64, hrq]
        have hsumb : fd.total_alloc + fd.total_req ≤ states_sum s.funcs :=
          mem_le_states_sum (find_func_mem hfd)
        have hupd := states_sum_update (alloc_update (al % 4294967296) (rq % 4294967296)) hfd
        have hf := alloc_update_fields (al % 4294967296) (rq % 4294967296) fd
        rw [hf.1, hf.2.1, add64_exact (by omega), add64_exact (by omega)] at hupd
        omega
    refine ⟨⟨?_, ?_⟩, hbudget_goal⟩
    · intro pr hpr
      cases hfd : find_func s.funcs cs with
      | none =>
        rw [funcs_alloc_absent s p rq al hfd, ha64, hrq] at hpr
        rcases List.mem_cons.mp hpr with h1 | h1
        · subst h1
          dsimp only
          have hf := alloc_update_fields (al % 4294967296) (rq % 4294967296) FuncStats.zero
          rw [show FuncStats.zero.total_alloc = 0 from rfl,
            show FuncStats.zero.total_req = 0 from rfl,
            show FuncStats.zero.current_alloc = 0 from rfl,
            show FuncStats.zero.current_req = 0 from rfl,
            show FuncStats.zero.max_alloc = 0 from rfl,
            show FuncStats.zero.max_req = 0 from rfl,
            add64_exact (by omega), add64_exact (by omega)] at hf
          omega
        · exact hmem pr h1
      | some fd =>
        rw [funcs_alloc_found s p rq al hfd, ha64, hrq] at hpr
        rcases mem_update_func hpr with h1 | ⟨fd2, hfd2, hpr2⟩
        · exact hmem pr h1
        · rw [hfd] at hfd2
          injection hfd2 with hfd3
          subst hfd3
          subst hpr2
          dsimp only
          have hcomp := hmem (cs, fd) (find_func_mem hfd)
          dsimp only at hcomp
          have hsumb : fd.total_alloc + fd.total_req ≤ states_sum s.funcs :=
            mem_le_states_sum (find_func_mem hfd)
          have hf := alloc_update_fields (al % 4294967296) (rq % 4294967296) fd
          rw [add64_exact (by omega), add64_exact (by omega),
            add64_exact (by omega), add64_exact (by omega)] at hf
          omega
    · intro g
      have hown_a := owned_sum_alloc_le s PtrDescr.alloc cs p rq al g
      have hown_r := owned_sum_alloc_le s PtrDescr.req cs p rq al g
      dsimp only at hown_a hown_r
      simp only [ha64, hrq] at hown_a hown_r
      have h1 := hown g
      by_cases hcs : cs = g
      · rw [← hcs] at h1 ⊢
        rw [if_pos hcs] at hown_a hown_r
        rw [hstats_self]
        have hf := alloc_update_fields (u64_of_int (to_i32 al)) (to_u32 rq) (stats_of s cs)
        rw [hf.2.2.1, hf.2.2.2.1]
        simp only [ha64, hrq]
        rw [add64_exact (by omega), add64_exact (by omega)]
        rw [← hcs] at hown_a hown_r
        constructor <;> omega
      · rw [if_neg hcs] at hown_a hown_r
        rw [stats_of_alloc_ne s p rq al (fun h => hcs h.symm)]
        constructor <;> omega

theorem good_state_empty : good_state MemState.empty := by
  constructor
  · intro pr hpr
    simp [MemState.empty] at hpr
  · intro g
    exact ⟨Nat.zero_le _, Nat.zero_le _⟩

theorem good_run (es : List Event) (s : MemState) (hg : good_state s)
    (hnn : allocs_nonneg es = true)
    (hbud : states_sum s.funcs + run_budget es < 18446744073709551616) :
    good_state (apply_events s es) := by
  induction es generalizing s with
  | nil => exact hg
  | cons e t ih =>
    simp only [allocs_nonneg, List.all_cons] at hnn
    have hpe := ((Bool.and_eq_true _ _).mp hnn).1
    have ht := ((Bool.and_eq_true _ _).mp hnn).2
    simp only [run_budget] at hbud
    have hstep := good_step s e hg
      (by simp only [allocs_nonneg, List.all_cons, List.all_nil, Bool.and_true]; exact hpe)
      (by omega)
    rw [apply_events_cons]
    refine ih _ hstep.1 ht ?_
    have := hstep.2
    omega

theorem allocs_nonneg_take {es : List Event} (k : Nat) (h : allocs_nonneg es = true) :
    allocs_nonneg (es.take k) = true := by
  rw [allocs_nonneg, List.all_eq_true] at h ⊢
  intro x hx
  exact h x (List.take_subset k es hx)

theorem run_budget_take_le (es : List Event) (k : Nat) :
    run_budget (es.take k) ≤ run_budget es := by
  induction es generalizing k with
  | nil =>
    rw [List.take_nil]
  | cons e t ih =>
    cases k with
    | zero =>
      rw [List.take_zero]
      exact Nat.zero_le _
    | succ n =>
      rw [List.take_succ_cons]
      simp only [run_budget]
      have := ih n
      omega

/-
  The claims.
-/

/-- C1: applying, from the empty aggregation state, the event sequence
allocate(siteX, ptr 0x1000, req 100, granted 128);
allocate(siteX, ptr 0x2000, req 50, granted 64); free(0x1000) leaves
siteX's statistics record with total_alloc 192, total_requested 150,
current_alloc 64, current_requested 50, max_alloc 192,
max_requested 150, and the report row computed for it at sort time
carries waste 14 and max_waste 42. (siteX is identity 1; 0x1000 = 4096
and 0x2000 = 8192.) -/
theorem c1_end_to_end_scenario :
    stats_of (apply_events MemState.empty
        [Event.alloc 1 4096 100 128, Event.alloc 1 8192 50 64, Event.free 4096]) 1 =
      ⟨192, 150, 64, 50, 192, 150⟩ ∧
    sort_list (apply_events MemState.empty
        [Event.alloc 1 4096 100 128, Event.alloc 1 8192 50 64, Event.free 4096]) =
      [⟨1, 14, 64, 50, 192, 150, 192, 150, 42⟩] := by
  decide

/-- C2: from every reachable state, allocate(A, P, req 10, granted 16)
followed by allocate(B, P, req 5, granted 8) with no intervening free,
followed by free(P), decrements only site B's current counters (by 8
and 5, in 64-bit arithmetic), leaves every other site's record exactly
as it was before the free, leaves site A's record exactly as it was
right after its own allocation (so the 16/10 added there persist), and
removes pointer P from the live table, so no later free can ever roll
site A's 16/10 back out. -/
theorem c2_reuse_overwrite (es0 : List Event) (A B P : Nat) (s0 s1 s2 s3 : MemState)
    (hAB : A ≠ B)
    (h0 : s0 = apply_events MemState.empty es0)
    (h1 : s1 = apply_event s0 (.alloc A P 10 16))
    (h2 : s2 = apply_event s1 (.alloc B P 5 8))
    (h3 : s3 = apply_event s2 (.free P)) :
    ((stats_of s3 B).current_alloc = sub64 (stats_of s2 B).current_alloc 8 ∧
     (stats_of s3 B).current_req = sub64 (stats_of s2 B).current_req 5 ∧
     (stats_of s3 B).total_alloc = (stats_of s2 B).total_alloc ∧
     (stats_of s3 B).total_req = (stats_of s2 B).total_req ∧
     (stats_of s3 B).max_alloc = (stats_of s2 B).max_alloc ∧
     (stats_of s3 B).max_req = (stats_of s2 B).max_req) ∧
    (∀ g, g ≠ B → stats_of s3 g = stats_of s2 g) ∧
    stats_of s3 A = stats_of s1 A ∧
    (stats_of s1 A).current_alloc = add64 (stats_of s0 A).current_alloc 16 ∧
    (stats_of s1 A).current_req = add64 (stats_of s0 A).current_req 10 ∧
    find_ptr s3.ptrs P = none := by
  have hfound : find_ptr s2.ptrs P = some ⟨B, 8, 5⟩ := by
    rw [h2]
    have := find_ptr_alloc_self s1 B P 5 8
    rw [(by decide : u64_of_int (to_i32 8) = 8), (by decide : to_u32 5 = 5)] at this
    exact this
  have hfB : find_func s2.funcs B = some (alloc_update 8 5 (stats_of s1 B)) := by
    rw [h2]
    have := find_func_alloc_self s1 B P 5 8
    rw [(by decide : u64_of_int (to_i32 8) = 8), (by decide : to_u32 5 = 5)] at this
    exact this
  have hs2B : stats_of s2 B = alloc_update 8 5 (stats_of s1 B) := by
    rw [h2]
    have := stats_of_alloc_self s1 B P 5 8
    rw [(by decide : u64_of_int (to_i32 8) = 8), (by decide : to_u32 5 = 5)] at this
    exact this
  refine ⟨?_, ?_, ?_, ?_, ?_, ?_⟩
  · have hs3B : stats_of s3 B = sub_stats ⟨B, 8, 5⟩ (alloc_update 8 5 (stats_of s1 B)) := by
      rw [h3]
      exact stats_of_free_self s2 hfound hfB
    rw [hs3B, hs2B]
    exact ⟨rfl, rfl, rfl, rfl, rfl, rfl⟩
  · intro g hgB
    rw [h3]
    exact stats_of_free_ne s2 hfound hgB
  · have hA32 : stats_of s3 A = stats_of s2 A := by
      rw [h3]
      exact stats_of_free_ne s2 hfound hAB
    have hA21 : stats_of s2 A = stats_of s1 A := by
      rw [h2]
      exact stats_of_alloc_ne s1 P 5 8 hAB
    rw [hA32, hA21]
  · rw [h1]
    have := stats_of_alloc_self s0 A P 10 16
    rw [(by decide : u64_of_int (to_i32 16) = 16), (by decide : to_u32 10 = 10)] at this
    rw [this]
    rfl
  · rw [h1]
    have := stats_of_alloc_self s0 A P 10 16
    rw [(by decide : u64_of_int (to_i32 16) = 16), (by decide : to_u32 10 = 10)] at this
    rw [this]
    rfl
  · have hnodup : (s2.ptrs.map Prod.fst).Nodup := by
      have hs2 : s2 = apply_events MemState.empty
          (es0 ++ [Event.alloc A P 10 16, Event.alloc B P 5 8]) := by
        rw [h2, h1, h0, apply_events_append]
        rfl
      rw [hs2]
      exact keys_nodup_run _ _ (by simp [MemState.empty])
    rw [h3, apply_event_free_found s2 hfound]
    exact find_ptr_remove_self hnodup

/-- C2 witness: the scenario run from the empty state with A = 1,
B = 2, P = 3: the free decrements site 2's current counters by 8
and 5. -/
theorem c2_reuse_overwrite_witness :
    (stats_of (apply_event (apply_event (apply_event
          (apply_events MemState.empty []) (.alloc 1 3 10 16)) (.alloc 2 3 5 8))
        (.free 3)) 2).current_alloc =
      sub64 (stats_of (apply_event (apply_event
          (apply_events MemState.empty []) (.alloc 1 3 10 16)) (.alloc 2 3 5 8))
        2).current_alloc 8 :=
  (c2_reuse_overwrite [] 1 2 3 (apply_events MemState.empty [])
    (apply_event (apply_events MemState.empty []) (.alloc 1 3 10 16))
    (apply_event (apply_event (apply_events MemState.empty [])
      (.alloc 1 3 10 16)) (.alloc 2 3 5 8))
    (apply_event (apply_event (apply_event (apply_events MemState.empty [])
      (.alloc 1 3 10 16)) (.alloc 2 3 5 8)) (.free 3))
    (by decide) rfl rfl rfl rfl).1.1

/-- C3 counterexample: the claim quantifies over every event sequence,
but a granted field of 4294967291 = 2 ^ 32 - 5 decodes through `int` to
-5, so after allocate(site 1, ptr 4096, req 0, granted 10);
allocate(site 1, ptr 8192, req 0, granted 4294967291); free(4096) the
site's current_alloc is 2 ^ 64 - 5 while max_alloc is 10: the relation
max_alloc >= current_alloc is violated after an event application. -/
theorem c3_counterexample :
    ¬ ((stats_of (apply_events MemState.empty
          [Event.alloc 1 4096 0 10, Event.alloc 1 8192 0 4294967291,
            Event.free 4096]) 1).current_alloc ≤
        (stats_of (apply_events MemState.empty
          [Event.alloc 1 4096 0 10, Event.alloc 1 8192 0 4294967291,
            Event.free 4096]) 1).max_alloc) := by
  decide

/-- C3 (amended): for every event sequence applied from the empty
state, after each single event application (i.e. in the state reached
by every prefix of the sequence) and for every call site,
max_alloc >= current_alloc and max_requested >= current_requested —
provided every allocate-class event's granted field decodes to a
nonnegative int and the total granted plus requested bytes of the
whole sequence stay below 2 ^ 64 (the counters are C unsigned longs;
without these provisos the relations fail, see the counterexample). -/
theorem c3_monotonic_high_water (es : List Event) (k f : Nat)
    (hnn : allocs_nonneg es = true)
    (hbud : run_budget es < 18446744073709551616) :
    (stats_of (apply_events MemState.empty (es.take k)) f).current_alloc ≤
      (stats_of (apply_events MemState.empty (es.take k)) f).max_alloc ∧
    (stats_of (apply_events MemState.empty (es.take k)) f).current_req ≤
      (stats_of (apply_events MemState.empty (es.take k)) f).max_req := by
  have hg := good_run (es.take k) MemState.empty good_state_empty
    (allocs_nonneg_take k hnn)
    (by
      have := run_budget_take_le es k
      rw [show states_sum MemState.empty.funcs = 0 from rfl]
      omega)
  obtain ⟨hmem, _⟩ := hg
  unfold stats_of
  cases hfd : find_func (apply_events MemState.empty (es.take k)).funcs f with
  | none => exact ⟨Nat.le_refl _, Nat.le_refl _⟩
  | some fd =>
    have := hmem (f, fd) (find_func_mem hfd)
    exact ⟨this.2.2.2.2.1, this.2.2.2.2.2⟩

/-- C3 witness: a small well-behaved run (one allocation of 128/100
bytes, then its free) satisfies the side conditions, and the
high-water relations hold in the final state. -/
theorem c3_monotonic_high_water_witness :
    (stats_of (apply_events MemState.empty
        ([Event.alloc 1 4096 100 128, Event.free 4096].take 2)) 1).current_alloc ≤
      (stats_of (apply_events MemState.empty
        ([Event.alloc 1 4096 100 128, Event.free 4096].take 2)) 1).max_alloc ∧
    (stats_of (apply_events MemState.empty
        ([Event.alloc 1 4096 100 128, Event.free 4096].take 2)) 1).current_req ≤
      (stats_of (apply_events MemState.empty
        ([Event.alloc 1 4096 100 128, Event.free 4096].take 2)) 1).max_req :=
  c3_monotonic_high_water [Event.alloc 1 4096 100 128, Event.free 4096] 2 1
    (by decide) (by decide)

/-- C4: at report time every row's waste field is exactly
current_alloc - current_req and its max_waste field is exactly
max_alloc - max_req, as signed differences: reading the stored 64-bit
field the way print_list's %ld conversion does yields the signed
difference verbatim, negative values included, with no clamping —
whenever the four source counters are within the signed 64-bit range
(they are C unsigned longs printed as signed longs). -/
theorem c4_waste_signed (s : MemState) (row : FuncReport)
    (hrow : row ∈ sort_list s)
    (h1 : row.current_alloc < 9223372036854775808)
    (h2 : row.current_req < 9223372036854775808)
    (h3 : row.max_alloc < 9223372036854775808)
    (h4 : row.max_req < 9223372036854775808) :
    as_signed64 row.waste = (row.current_alloc : Int) - (row.current_req : Int) ∧
    as_signed64 row.max_waste = (row.max_alloc : Int) - (row.max_req : Int) := by
  unfold sort_list at hrow
  have hmem : row ∈ s.funcs.map func_report :=
    (List.perm_insertionSort row_le _).mem_iff.mp hrow
  obtain ⟨pr, hpr, heq⟩ := List.mem_map.mp hmem
  subst heq
  dsimp only [func_report] at h1 h2 h3 h4 ⊢
  exact ⟨as_signed64_sub64 h1 h2, as_signed64_sub64 h3 h4⟩

/-- C4 witness: a site that requested 10 bytes but was granted only 3
has a negative waste: the stored waste field is 2 ^ 64 - 7 and reads
back as -7 = 3 - 10 through the signed reinterpretation. -/
theorem c4_waste_signed_witness :
    as_signed64 (FuncReport.mk 1 18446744073709551609 3 10 3 10 3 10
        18446744073709551609).waste =
      ((3 : Nat) : Int) - ((10 : Nat) : Int) ∧
    as_signed64 (FuncReport.mk 1 18446744073709551609 3 10 3 10 3 10
        18446744073709551609).max_waste =
      ((3 : Nat) : Int) - ((10 : Nat) : Int) :=
  c4_waste_signed (apply_events MemState.empty [Event.alloc 1 4096 10 3])
    ⟨1, 18446744073709551609, 3, 10, 3, 10, 3, 10, 18446744073709551609⟩
    (by decide) (by decide) (by decide) (by decide) (by decide)

/-- C5: the report lists call sites in descending order of waste: if
the row at position i has waste 100 and the row at position j has
waste 50, then i comes strictly before j. (Nothing is claimed about
the relative order of equal-waste rows; the proof only uses
sortedness with respect to the func_cmp comparator, which any qsort
outcome satisfies.) -/
theorem c5_sort_descending (s : MemState) (i j : Nat)
    (hi : i < (sort_list s).length) (hj : j < (sort_list s).length)
    (h100 : ((sort_list s).get ⟨i, hi⟩).waste = 100)
    (h50 : ((sort_list s).get ⟨j, hj⟩).waste = 50) :
    i < j := by
  have hs : List.Sorted row_le (sort_list s) := List.sorted_insertionSort row_le _
  rcases Nat.lt_trichotomy i j with h | h | h
  · exact h
  · exfalso
    subst h
    rw [show (⟨i, hi⟩ : Fin (sort_list s).length) = ⟨i, hj⟩ from rfl] at h100
    omega
  · exfalso
    have hr := List.Sorted.rel_get_of_lt hs
      (show (⟨j, hj⟩ : Fin (sort_list s).length) < ⟨i, hi⟩ from h)
    unfold row_le func_cmp at hr
    rw [h100, h50] at hr
    norm_num at hr

/-- C5 witness: two sites with wastes 100 and 50; the report has two
rows and the waste-100 row is at position 0, before the waste-50 row
at position 1. -/
theorem c5_sort_descending_witness :
    (sort_list (apply_events MemState.empty
        [Event.alloc 1 4096 0 100, Event.alloc 2 8192 0 50])).length = 2 ∧
    (0 : Nat) < 1 :=
  ⟨by decide,
    c5_sort_descending (apply_events MemState.empty
        [Event.alloc 1 4096 0 100, Event.alloc 2 8192 0 50]) 0 1
      (by decide) (by decide) (by decide) (by decide)⟩

/-- C6: a call site whose allocations are never overwritten by a
pointer-reuse collision and whose live records have all been freed by
the end of the run (the well-paired allocate/free discipline: each
allocate later matched by exactly one free of its pointer) ends with
current_alloc = 0 and current_requested = 0. -/
theorem c6_conservation (es : List Event) (f : Nat)
    (hnr : no_reuse_for f MemState.empty es = true)
    (hend : ((apply_events MemState.empty es).ptrs.all
      fun pe => ! (pe.2.func == f)) = true) :
    (stats_of (apply_events MemState.empty es) f).current_alloc = 0 ∧
    (stats_of (apply_events MemState.empty es) f).current_req = 0 := by
  have hb := balanced_run es MemState.empty f (balanced_for_empty f) hnr
  obtain ⟨hca, hcr, _⟩ := hb
  rw [owned_sum_zero_of_all PtrDescr.alloc hend, Nat.zero_mod] at hca
  rw [owned_sum_zero_of_all PtrDescr.req hend, Nat.zero_mod] at hcr
  exact ⟨hca, hcr⟩

/-- C6 witness: one allocation by site 7 followed by its matching free
leaves site 7 with both current counters at zero. -/
theorem c6_conservation_witness :
    (stats_of (apply_events MemState.empty
        [Event.alloc 7 4096 10 16, Event.free 4096]) 7).current_alloc = 0 ∧
    (stats_of (apply_events MemState.empty
        [Event.alloc 7 4096 10 16, Event.free 4096]) 7).current_req = 0 :=
  c6_conservation [Event.alloc 7 4096 10 16, Event.free 4096] 7
    (by decide) (by decide)

/-- C7: a free-class event whose pointer has no live record leaves the
entire aggregation state (both tables, hence every call site's
statistics) exactly unchanged; processing continues, since
remove_kmalloc simply returns. -/
theorem c7_noop_free (s : MemState) (p : Nat)
    (h : find_ptr s.ptrs p = none) :
    apply_event s (.free p) = s :=
  apply_event_free_absent s h

/-- C7 witness: freeing pointer 4096 in the empty state is a no-op. -/
theorem c7_noop_free_witness :
    apply_event MemState.empty (.free 4096) = MemState.empty :=
  c7_noop_free MemState.empty 4096 rfl

/-- C8: an event whose narrowed common_type discriminant matches none
of the six resolved event types falls through every branch of
process_record and leaves the state (both tables) unchanged;
process_record is total, so processing neither terminates nor fails. -/
theorem c8_unknown_event (tys : EventTypes) (s : MemState) (r : RawRecord)
    (h1 : to_i32 r.common_type ≠ tys.kmalloc_type)
    (h2 : to_i32 r.common_type ≠ tys.kmalloc_node_type)
    (h3 : to_i32 r.common_type ≠ tys.kfree_type)
    (h4 : to_i32 r.common_type ≠ tys.kmem_cache_alloc_type)
    (h5 : to_i32 r.common_type ≠ tys.kmem_cache_alloc_node_type)
    (h6 : to_i32 r.common_type ≠ tys.kmem_cache_free_type) :
    process_record tys s r = s := by
  simp [process_record, h1, h2, h3, h4, h5, h6]

/-- C8 witness: with the six discriminants resolved to 1..6, a record
with common_type 100 is ignored. -/
theorem c8_unknown_event_witness :
    process_record ⟨1, 2, 3, 4, 5, 6⟩ MemState.empty ⟨100, 11, 12, 13, 14⟩ =
      MemState.empty :=
  c8_unknown_event ⟨1, 2, 3, 4, 5, 6⟩ MemState.empty ⟨100, 11, 12, 13, 14⟩
    (by decide) (by decide) (by decide) (by decide) (by decide) (by decide)

/-- C9 counterexample: total_alloc can decrease across one allocate
event: after allocate(site 1, req 0, granted 10) the site's
total_alloc is 10, and a further allocate whose granted field is
4294967291 = 2 ^ 32 - 5 (decoding to int -5) drops it to 5. -/
theorem c9_counterexample :
    (stats_of (apply_event (apply_events MemState.empty
        [Event.alloc 1 4096 0 10]) (Event.alloc 1 8192 0 4294967291)) 1).total_alloc <
      (stats_of (apply_events MemState.empty
        [Event.alloc 1 4096 0 10]) 1).total_alloc := by
  decide

/-- C9 (amended): across one event application, a call site's
max_alloc and max_req never decrease, unconditionally — they are only
ever raised, and when they change they are set exactly to the new
value of the corresponding current counter; free-class events leave
total_alloc and total_req untouched unconditionally. The site's
total_alloc and total_req never decrease provided an allocation
attributed to that site carries a granted field decoding to a
nonnegative int and its lifetime counters have room below 2 ^ 64
(without which the 32-bit narrowing or the 64-bit wrap can lower
them, see the counterexample). -/
theorem c9_monotone_counters (s : MemState) (e : Event) (f : Nat) :
    ((stats_of s f).max_alloc ≤ (stats_of (apply_event s e) f).max_alloc ∧
     (stats_of s f).max_req ≤ (stats_of (apply_event s e) f).max_req ∧
     ((stats_of (apply_event s e) f).max_alloc = (stats_of s f).max_alloc ∨
       (stats_of (apply_event s e) f).max_alloc =
         (stats_of (apply_event s e) f).current_alloc) ∧
     ((stats_of (apply_event s e) f).max_req = (stats_of s f).max_req ∨
       (stats_of (apply_event s e) f).max_req =
         (stats_of (apply_event s e) f).current_req) ∧
     (∀ q, e = Event.free q →
       (stats_of (apply_event s e) f).total_alloc = (stats_of s f).total_alloc ∧
       (stats_of (apply_event s e) f).total_req = (stats_of s f).total_req)) ∧
    (step_ok s f e = true →
      (stats_of s f).total_alloc ≤ (stats_of (apply_event s e) f).total_alloc ∧
      (stats_of s f).total_req ≤ (stats_of (apply_event s e) f).total_req) := by
  cases e with
  | other =>
    exact ⟨⟨Nat.le_refl _, Nat.le_refl _, Or.inl rfl, Or.inl rfl,
      fun q hq => nomatch hq⟩, fun _ => ⟨Nat.le_refl _, Nat.le_refl _⟩⟩
  | alloc cs p rq al =>
    by_cases hcs : cs = f
    · subst hcs
      have hself := stats_of_alloc_self s cs p rq al
      have hf := alloc_update_fields (u64_of_int (to_i32 al)) (to_u32 rq) (stats_of s cs)
      constructor
      · rw [hself]
        refine ⟨hf.2.2.2.2.2.2.1, hf.2.2.2.2.2.2.2.2.1, ?_, ?_,
          fun q hq => nomatch hq⟩
        · rcases hf.2.2.2.2.1 with hmx | hmx
          · right
            rw [hmx, hf.2.2.1]
          · left
            exact hmx
        · rcases hf.2.2.2.2.2.1 with hmx | hmx
          · right
            rw [hmx, hf.2.2.2.1]
          · left
            exact hmx
      · intro h
        simp [step_ok] at h
        obtain ⟨hnn, hta, htr⟩ := h
        rw [hself, u64_of_int_nonneg_decode hnn, to_u32_eq]
        have hf2 := alloc_update_fields (al % 4294967296) (rq % 4294967296) (stats_of s cs)
        constructor
        · rw [hf2.1, add64_exact (by omega)]
          omega
        · rw [hf2.2.1, add64_exact (by omega)]
          omega
    · rw [stats_of_alloc_ne s p rq al (fun hh => hcs hh.symm)]
      exact ⟨⟨Nat.le_refl _, Nat.le_refl _, Or.inl rfl, Or.inl rfl,
        fun q hq => nomatch hq⟩, fun _ => ⟨Nat.le_refl _, Nat.le_refl _⟩⟩
  | free p =>
    cases hfind : find_ptr s.ptrs p with
    | none =>
      rw [apply_event_free_absent s hfind]
      exact ⟨⟨Nat.le_refl _, Nat.le_refl _, Or.inl rfl, Or.inl rfl,
        fun q hq => ⟨rfl, rfl⟩⟩, fun _ => ⟨Nat.le_refl _, Nat.le_refl _⟩⟩
    | some e0 =>
      by_cases hef : f = e0.func
      · subst hef
        cases hfd : find_func s.funcs e0.func with
        | none =>
          have hstats :
              stats_of (apply_event s (.free p)) e0.func = stats_of s e0.func := by
            unfold stats_of
            rw [funcs_free_self_absent s hfind hfd]
          rw [hstats]
          exact ⟨⟨Nat.le_refl _, Nat.le_refl _, Or.inl rfl, Or.inl rfl,
            fun q hq => ⟨rfl, rfl⟩⟩, fun _ => ⟨Nat.le_refl _, Nat.le_refl _⟩⟩
        | some fd =>
          have hstats := stats_of_free_self s hfind hfd
          have hsf : stats_of s e0.func = fd := by
            unfold stats_of
            rw [hfd]
          rw [hstats, hsf]
          exact ⟨⟨Nat.le_refl _, Nat.le_refl _, Or.inl rfl, Or.inl rfl,
            fun q hq => ⟨rfl, rfl⟩⟩, fun _ => ⟨Nat.le_refl _, Nat.le_refl _⟩⟩
      · rw [stats_of_free_ne s hfind hef]
        exact ⟨⟨Nat.le_refl _, Nat.le_refl _, Or.inl rfl, Or.inl rfl,
          fun q hq => ⟨rfl, rfl⟩⟩, fun _ => ⟨Nat.le_refl _, Nat.le_refl _⟩⟩

/-- C9 witness: a well-formed allocation (req 100, granted 128) from
the empty state does not decrease site 1's total_alloc. -/
theorem c9_monotone_counters_witness :
    (stats_of MemState.empty 1).total_alloc ≤
      (stats_of (apply_event MemState.empty (Event.alloc 1 4096 100 128)) 1).total_alloc :=
  ((c9_monotone_counters MemState.empty (Event.alloc 1 4096 100 128) 1).2 (by decide)).1

/-- C10: when an allocate-class event is decoded, the requested count
is narrowed through a 32-bit unsigned integer and the granted count
through a 32-bit signed integer: the value added (modulo 2 ^ 64) to
total_alloc and current_alloc is the sign-extension of the granted
field's low 32 bits (sign_ext32), never the reported 64-bit value
itself, and the value added to total_req / current_req is the low 32
bits of the requested field; consequently a reported granted value in
[2 ^ 31, 2 ^ 32) subtracts 2 ^ 32 - granted from current_alloc and
strictly decreases it (whenever the counter holds at least that much
and is a valid 64-bit value, as it always is in a real run). -/
theorem c10_narrowing (s : MemState) (f p rq al : Nat) :
    ((stats_of (apply_event s (.alloc f p rq al)) f).total_alloc =
        add64 (stats_of s f).total_alloc (sign_ext32 al) ∧
      (stats_of (apply_event s (.alloc f p rq al)) f).current_alloc =
        add64 (stats_of s f).current_alloc (sign_ext32 al) ∧
      (stats_of (apply_event s (.alloc f p rq al)) f).total_req =
        add64 (stats_of s f).total_req (rq % 4294967296) ∧
      (stats_of (apply_event s (.alloc f p rq al)) f).current_req =
        add64 (stats_of s f).current_req (rq % 4294967296)) ∧
    (2147483648 ≤ al → al < 4294967296 →
      4294967296 - al ≤ (stats_of s f).current_alloc →
      (stats_of s f).current_alloc < 18446744073709551616 →
      (stats_of (apply_event s (.alloc f p rq al)) f).current_alloc =
          (stats_of s f).current_alloc - (4294967296 - al) ∧
        (stats_of (apply_event s (.alloc f p rq al)) f).current_alloc <
          (stats_of s f).current_alloc) := by
  have hself := stats_of_alloc_self s f p rq al
  rw [u64_of_int_to_i32, to_u32_eq] at hself
  have hf := alloc_update_fields (sign_ext32 al) (rq % 4294967296) (stats_of s f)
  constructor
  · rw [hself]
    exact ⟨hf.1, hf.2.2.1, hf.2.1, hf.2.2.2.1⟩
  · intro hlo hhi hroom hvalid
    rw [hself, hf.2.2.1]
    have hsext : sign_ext32 al = 18446744073709551616 - 4294967296 + al := by
      unfold sign_ext32
      split <;> omega
    rw [hsext]
    unfold add64
    constructor <;> omega

/-- C10 witness: with site 1 holding current_alloc 100, an event whose
granted field is 4294967291 = 2 ^ 32 - 5 (at least 2 ^ 31) lowers
current_alloc to 95 = 100 - (2 ^ 32 - 4294967291). -/
theorem c10_narrowing_witness :
    (stats_of (apply_event (apply_events MemState.empty
          [Event.alloc 1 1000 0 100]) (.alloc 1 2000 0 4294967291)) 1).current_alloc =
        (stats_of (apply_events MemState.empty
          [Event.alloc 1 1000 0 100]) 1).current_alloc - (4294967296 - 4294967291) ∧
      (stats_of (apply_event (apply_events MemState.empty
          [Event.alloc 1 1000 0 100]) (.alloc 1 2000 0 4294967291)) 1).current_alloc <
        (stats_of (apply_events MemState.empty
          [Event.alloc 1 1000 0 100]) 1).current_alloc :=
  (c10_narrowing (apply_events MemState.empty [Event.alloc 1 1000 0 100])
    1 2000 0 4294967291).2 (by decide) (by decide) (by decide) (by decide)

